import Mathlib

/-!
Verification of the symbolic-analysis and SMT-encoding core of
`korrekt` (src/korrekt/src/circuit_analyzer/analyzer.rs).

The development shallowly embeds the analyzer's data model and
operations.  Code from `analyzer.rs` is translated directly; helper
modules of the repository that are not part of the provided sources
(`smt_solver::smt`, `circuit_analyzer::abstract_expr`, the layouter and
the external cvc5 process) are modelled from the specification, each
with a doc comment starting `Modelled from the spec:`.

Conventions of the embedding:
* field elements travel as `Nat` (the code prints `get_lower_128()`
  digits) and solver model values as `Int`;
* Rust `i32` row/rotation arithmetic is `Int` (overflow is irrelevant
  to the verified properties);
* an out-of-bounds vector index (a Rust panic) is modelled by a
  default value, noted at each definition where it can occur.
-/

namespace Korrekt

/-- `NodeType` enum from analyzer.rs (lines 40-50). -/
inductive NodeType where
  | Constant
  | Advice
  | Instance
  | Fixed
  | Negated
  | Mult
  | Add
  | Scaled
  | Poly
deriving DecidableEq, Repr

/-- `Operation` enum from analyzer.rs (lines 52-57). -/
inductive Operation where
  | Equal
  | NotEqual
  | And
  | Or
deriving DecidableEq, Repr

/-- Verification mode from `AnalyzerInput` (spec section 3). -/
inductive VerificationMethod where
  | Specific
  | Random
deriving DecidableEq, Repr

/-- Terminal classification `AnalyzerOutputStatus` (spec section 3). -/
inductive AnalyzerOutputStatus where
  | UnusedCustomGates
  | UnusedColumns
  | UnconstrainedCells
  | Overconstrained
  | Underconstrained
  | NotUnderconstrained
  | NotUnderconstrainedLocal
  | Invalid
deriving DecidableEq, Repr

/-- Satisfiability verdict of a solver response (spec section 3, Model). -/
inductive Satisfiability where
  | Satisfiable
  | Unsatisfiable
  | Unknown
deriving DecidableEq, Repr

/-- Logical content of one assertion written to the solver script by the
uniqueness prover: equalities and disequalities between a declared
variable and a concrete field value, and finite conjunctions and
disjunctions of such assertions. -/
inductive Formula where
  | eq (v : String) (val : Int)
  | ne (v : String) (val : Int)
  | conj (fs : List Formula)
  | disj (fs : List Formula)

mutual

/-- Evaluation of a formula in a model (an assignment of field values
to variable names). -/
def evalF (m : String → Int) : Formula → Bool
  | .eq v val => m v == val
  | .ne v val => !(m v == val)
  | .conj fs => evalAll m fs
  | .disj fs => evalAny m fs

/-- All formulas of a list hold in the model. -/
def evalAll (m : String → Int) : List Formula → Bool
  | [] => true
  | f :: fs => evalF m f && evalAll m fs

/-- Some formula of a list holds in the model. -/
def evalAny (m : String → Int) : List Formula → Bool
  | [] => false
  | f :: fs => evalF m f || evalAny m fs

end

/-- One command of the append-only solver script: scope push, scope pop
or an assertion (analyzer.rs writes these through `smt::write_push`,
`smt::write_pop`, `smt::write_assert` / `smt::write_assert_bool`). -/
inductive Command where
  | push
  | pop
  | assertF (f : Formula)

/-- Modelled from the spec: the solver processes the script
left-to-right keeping a stack of backtrackable scopes (spec section 5,
"Assertion scopes (push/pop) form a strict stack discipline").  The
state is the current assertion list plus the stack of saved lists.
A pop on an empty stack (never produced by the analyzer) is ignored. -/
def procCmd : List Formula × List (List Formula) → Command → List Formula × List (List Formula)
  | (cur, stk), .push => (cur, cur :: stk)
  | (cur, stk), .pop =>
    match stk with
    | [] => (cur, [])
    | s :: stk' => (s, stk')
  | (cur, stk), .assertF f => (cur ++ [f], stk)

/-- Run the scope machine over a whole script from a given state. -/
def procScript (s : List Formula × List (List Formula)) (cmds : List Command) :
    List Formula × List (List Formula) :=
  cmds.foldl procCmd s

/-- The assertions in force after processing a script from the empty
initial state: what a `check-sat` issued at the end of the script asks
the solver about. -/
def effective (cmds : List Command) : List Formula :=
  (procScript ([], []) cmds).1

/-- Result of one solver invocation: verdict plus, when available, the
model as a map from variable name to field value (spec section 3). -/
structure ModelResult where
  sat : Satisfiability
  result : String → Int

/-- Modelled from the spec: `solve_and_get_model` copies the script,
appends `check-sat` and `get-value` commands and runs the external cvc5
process (analyzer.rs lines 743-766; the solver itself is the external
interface of spec section 6).  It is abstracted as a function from the
accumulated script to a `ModelResult`. -/
def Solver : Type := List Command → ModelResult

/-- A solver is sound when every model it reports satisfiable actually
satisfies all assertions in force in the queried script. -/
def SolverSound (solve : Solver) : Prop :=
  ∀ cmds, (solve cmds).sat = .Satisfiable →
    evalAll (solve cmds).result (effective cmds) = true

/-- Single pass over the variable set splitting it into "same public
input" equalities and "different witness" disequalities against the
model `M`, as in analyzer.rs lines 627-660: a variable gets an equality
when it is an instance column and the mode is not `Specific`, and a
disequality otherwise. -/
def sameDiff (ik : List String) (meth : VerificationMethod) (M : String → Int) :
    List String → List Formula × List Formula
  | [] => ([], [])
  | v :: rest =>
    let sd := sameDiff ik meth M rest
    if ik.contains v && !(meth == .Specific) then (Formula.eq v (M v) :: sd.1, sd.2)
    else (sd.1, Formula.ne v (M v) :: sd.2)

/-- The formula asserted inside the backtrackable scope of one
iteration (analyzer.rs lines 662-675): the conjunction of the "same"
equalities together with the disjunction of the "different"
disequalities. -/
def cexFormula (vars ik : List String) (meth : VerificationMethod) (M : String → Int) :
    Formula :=
  let sd := sameDiff ik meth M vars
  .conj (sd.1 ++ [.disj sd.2])

/-- The blocking clause asserted permanently after a failed
counterexample query (analyzer.rs lines 694-711): the disjunction, over
the instance variables among the model entries, of disequalities
against the original model values. -/
def blockFormula (vars ik : List String) (M : String → Int) : Formula :=
  .disj ((vars.filter fun v => ik.contains v).map fun v => .ne v (M v))

/-- The iteration loop of `uniqueness_assertion` (analyzer.rs lines
605-712).  Returns the final status, the final solver script and the
trace of loop-head query results (verdict and model, one per executed
iteration body). -/
def uniqLoop (solve : Solver) (vars ik : List String) (meth : VerificationMethod) :
    List Command → Nat →
    AnalyzerOutputStatus × List Command × List (Satisfiability × (String → Int))
  | script, 0 => (.NotUnderconstrainedLocal, script, [])
  | script, fuel + 1 =>
    let m := solve script
    if m.sat = .Unsatisfiable then (.NotUnderconstrained, script, [])
    else
      let M := m.result
      let script1 := script ++ [.push, .assertF (cexFormula vars ik meth M)]
      if (solve script1).sat = .Satisfiable then (.Underconstrained, script1, [(m.sat, M)])
      else
        let script2 := script1 ++ [.pop, .assertF (blockFormula vars ik M)]
        let r := uniqLoop solve vars ik meth script2 fuel
        (r.1, r.2.1, (m.sat, M) :: r.2.2)

/-- Printer state handed to `uniqueness_assertion`: the script written
so far and the declared variables (`printer.vars.keys`, snapshotted at
entry, analyzer.rs lines 575-578). -/
structure AnalyzerPrinter where
  script : List Command
  vars : List String

/-- The script in force when the pre-loop base query is issued:
in `Specific` mode the instance pins have been asserted
(analyzer.rs lines 583-594), in `Random` mode the script is unchanged. -/
def base_script (meth : VerificationMethod) (instance_cols : List (String × Int))
    (pr : AnalyzerPrinter) : List Command :=
  match meth with
  | .Specific => pr.script ++ instance_cols.map fun pv => Command.assertF (.eq pv.1 pv.2)
  | .Random => pr.script

/-- `uniqueness_assertion` (analyzer.rs lines 568-714): pins instances
in `Specific` mode, sets the iteration budget (1 in `Specific` mode,
the configured bound in `Random` mode), issues the base query
(`Overconstrained` when unsatisfiable) and runs the iteration loop. -/
def uniqueness_assertion (solve : Solver) (instance_cols : List (String × Int))
    (meth : VerificationMethod) (iterations : Nat) (pr : AnalyzerPrinter) :
    AnalyzerOutputStatus × List Command × List (Satisfiability × (String → Int)) :=
  let max_iterations : Nat :=
    match meth with
    | .Specific => 1
    | .Random => iterations
  let script0 := base_script meth instance_cols pr
  if (solve script0).sat = .Unsatisfiable then (.Overconstrained, script0, [])
  else uniqLoop solve pr.vars (instance_cols.map Prod.fst) meth script0 max_iterations

/-- The script in force after one full non-terminating iteration over
base script `script` with base model `M`: the scoped counterexample
formula bracketed by push/pop followed by the permanent blocking
clause. -/
def blocked_script (script : List Command) (vars ik : List String)
    (meth : VerificationMethod) (M : String → Int) : List Command :=
  script ++ [.push, .assertF (cexFormula vars ik meth M),
    .pop, .assertF (blockFormula vars ik M)]

/-- A toy solver for exercising the prover on concrete runs: the empty
script is satisfiable (all-zero model), anything longer is not. -/
def demoSolver : Solver := fun cmds =>
  if cmds.length == 0 then { sat := .Satisfiable, result := fun _ => 0 }
  else { sat := .Unsatisfiable, result := fun _ => 0 }

/-- A toy solver reporting every script unsatisfiable; vacuously
sound. -/
def unsatSolver : Solver := fun _ =>
  { sat := .Unsatisfiable, result := fun _ => 0 }

/-- The halo2 expression algebra consumed by the analyzer (spec
section 3): field constants, selector references and column queries
(column index plus rotation), combined by negation, sum, product and
scaling by a field constant. -/
inductive Expression where
  | Constant (a : Nat)
  | Selector (idx : Nat)
  | Fixed (column_index : Nat) (rotation : Int)
  | Advice (column_index : Nat) (rotation : Int)
  | Instance (column_index : Nat) (rotation : Int)
  | Negated (e : Expression)
  | Sum (a b : Expression)
  | Product (a b : Expression)
  | Scaled (e : Expression) (c : Nat)
deriving DecidableEq, Repr

/-- Modelled from the spec: `smt::write_term`'s operand formatting
(the `smt_solver::smt` module is not among the provided sources).
Spec section 4.3: term-combination must special-case atomic kinds
(Constant/Advice/Fixed/Instance, whose rendered strings stand alone)
against compound kinds, which are parenthesized. -/
def wrapTerm (s : String) (t : NodeType) : String :=
  match t with
  | .Constant | .Advice | .Instance | .Fixed => s
  | _ => "(" ++ s ++ ")"

/-- Modelled from the spec: `smt::write_term` combines two decomposed
subterm strings with a field operation in the solver's textual syntax
(spec sections 4.3 and 6). -/
def write_term (op l : String) (lt : NodeType) (r : String) (rt : NodeType) : String :=
  "(ff." ++ op ++ " " ++ wrapTerm l lt ++ " " ++ wrapTerm r rt ++ ")"

/-- Modelled from the spec: `smt::get_assert` renders a comparison
between a term string and a literal field value as a boolean solver
term (spec section 6's textual assertion protocol). -/
def get_assert (lhs value : String) (nt : NodeType) (op : Operation) : String :=
  match op with
  | .Equal => "(= " ++ wrapTerm lhs nt ++ " (as ff" ++ value ++ " F))"
  | .NotEqual => "(not (= " ++ wrapTerm lhs nt ++ " (as ff" ++ value ++ " F)))"
  | .And => "(and " ++ wrapTerm lhs nt ++ " " ++ value ++ ")"
  | .Or => "(or " ++ wrapTerm lhs nt ++ " " ++ value ++ ")"

/-- Modelled from the spec: `smt::get_and` wraps a concatenation of
boolean terms in a conjunction. -/
def get_and (s : String) : String :=
  "(and " ++ s ++ ")"

/-- Modelled from the spec: `smt::write_assert` emits one assertion
line equating a decomposed term with a literal value. -/
def write_assert (term value : String) (nt : NodeType) (op : Operation) : String :=
  "(assert " ++ get_assert term value nt op ++ ")"

/-- Modelled from the spec: `smt::write_assert_bool` emits one
assertion wrapping a concatenation of boolean terms in the given
connective. -/
def write_assert_bool (s : String) (op : Operation) : String :=
  match op with
  | .Or => "(assert (or " ++ s ++ "))"
  | .And => "(assert (and " ++ s ++ "))"
  | _ => "(assert " ++ s ++ ")"

/-- Termination measure for `decompose_expression`: the `Scaled` case
recurses on a freshly built `Constant`, which this measure keeps
strictly below the `Scaled` node. -/
def exprSize : Expression → Nat
  | .Negated e => exprSize e + 1
  | .Sum a b => exprSize a + exprSize b + 1
  | .Product a b => exprSize a + exprSize b + 1
  | .Scaled e _ => exprSize e + 2
  | _ => 1

/-- `decompose_expression` (analyzer.rs lines 338-446): renders an
expression as an SMT term string together with the `NodeType` of its
head.  `es` is the region's enabled-selector name set; selector
references are resolved to literal 1/0 at encoding time; instance
references produce an empty placeholder; `Scaled` recurses through the
product rule on a freshly built constant. -/
def decompose_expression (es : List String) (region_no : Nat) (row_num : Int) :
    Expression → String × NodeType
  | .Constant a => ("(as ff" ++ toString a ++ " F)", .Constant)
  | .Selector idx =>
    let s := "S-" ++ toString region_no ++ "-" ++ toString idx ++ "-" ++ toString row_num
    if es.contains s then ("(as ff1 F)", .Fixed) else ("(as ff0 F)", .Fixed)
  | .Fixed ci rot =>
    ("F-" ++ toString region_no ++ "-" ++ toString ci ++ "-" ++ toString (rot + row_num), .Fixed)
  | .Advice ci rot =>
    ("A-" ++ toString region_no ++ "-" ++ toString ci ++ "-" ++ toString (rot + row_num), .Advice)
  | .Instance _ _ => ("", .Instance)
  | .Negated p =>
    let r := decompose_expression es region_no row_num p
    (if r.2 = .Advice ∨ r.2 = .Instance ∨ r.2 = .Fixed ∨ r.2 = .Constant
      then "ff.neg " ++ r.1
      else "ff.neg (" ++ r.1 ++ ")", .Negated)
  | .Sum a b =>
    let l := decompose_expression es region_no row_num a
    let r := decompose_expression es region_no row_num b
    (write_term "add" l.1 l.2 r.1 r.2, .Add)
  | .Product a b =>
    let l := decompose_expression es region_no row_num a
    let r := decompose_expression es region_no row_num b
    (write_term "mul" l.1 l.2 r.1 r.2, .Mult)
  | .Scaled p c =>
    let l := decompose_expression es region_no row_num (.Constant c)
    let r := decompose_expression es region_no row_num p
    (write_term "mul" l.1 l.2 r.1 r.2, .Scaled)
termination_by e => exprSize e
decreasing_by
all_goals simp [exprSize]
all_goals omega

/-- `CellValue` of a fixed-table cell (halo2's `dev::CellValue`):
unassigned, assigned to a concrete field value, or poisoned (the
payload is the poisoning row index and must never be read as data). -/
inductive CellValue where
  | Unassigned
  | Assigned (v : Nat)
  | Poison (idx : Nat)
deriving DecidableEq, Repr

/-- The fixed-table cell `fixed[ci][row]` (column-major).  An
out-of-bounds index, a Rust panic, is modelled as `Unassigned`. -/
def cellAt (fixed : List (List CellValue)) (ci row : Nat) : CellValue :=
  (fixed.getD ci []).getD row .Unassigned

/-- Whether a cell is the `Unassigned` gap marker. -/
def isUnassigned : CellValue → Bool
  | .Unassigned => true
  | _ => false

/-- The literal value string the lookup encoder compares against
(analyzer.rs lines 517-530): the decimal digits of an assigned value,
and the empty string for a poisoned cell, whose payload is never read
(`t` keeps its initial `String::new()` value). -/
def cell_value_str : CellValue → String
  | .Assigned f => toString f
  | _ => ""

/-- Normalizes the payload stored inside a `Poison` cell; used to state
that the lookup encoding never reads that payload. -/
def scrub : CellValue → CellValue
  | .Poison _ => .Poison 0
  | c => c

/-- The inner column scan of one lookup-table row (analyzer.rs lines
513-539): `pairs` zips each decomposed input-expression term with its
table column index; the scan produces the equality conjuncts of the
row, or `none` when an `Unassigned` cell is encountered (the code sets
`exit` and breaks, discarding the partially built row). -/
def row_equalities (fixed : List (List CellValue)) (row : Nat) :
    List (String × Nat) → Option (List String)
  | [] => some []
  | (s, ci) :: rest =>
    match cellAt fixed ci row with
    | .Unassigned => none
    | cv =>
      match row_equalities fixed row rest with
      | none => none
      | some l => some (get_assert s (cell_value_str cv) .Mult .Equal :: l)

/-- The outer row scan of one lookup (analyzer.rs lines 508-549): one
conjunction per table row, in order, stopping for good at the first row
whose scan hits an `Unassigned` cell (`exit` breaks the row loop). -/
def table_disjuncts (pairs : List (String × Nat)) (fixed : List (List CellValue)) :
    List Nat → List String
  | [] => []
  | r :: rest =>
    match row_equalities fixed r pairs with
    | none => []
    | some eqs => get_and (String.join eqs) :: table_disjuncts pairs fixed rest

/-- A lookup argument of the constraint system (spec section 3): input
expressions and parallel table expressions. -/
structure LookupModel where
  input_expressions : List Expression
  table_expressions : List Expression

/-- The decomposed input-expression terms of a lookup (analyzer.rs
lines 485-495), zipped positionally with the column indices of the
`Fixed`-reference table expressions (lines 497-505; non-Fixed table
expressions are skipped).  Input/column lists of unequal length, a Rust
index panic, are modelled by zip truncation. -/
def lookup_pairs (lk : LookupModel) (region_no : Nat) (row_num : Int)
    (es : List String) : List (String × Nat) :=
  (lk.input_expressions.map fun p => (decompose_expression es region_no row_num p).1).zip
    (lk.table_expressions.filterMap fun e =>
      match e with
      | .Fixed ci _ => some ci
      | _ => none)

/-- The single assertion emitted for one lookup at one (region, row)
(analyzer.rs lines 484-554): scan the concrete fixed-table rows (the
row count is the length of the first fixed column, `fixed[0].len()`;
the empty-table panic is modelled as a zero row count) and assert the
disjunction of the per-row conjunctions. -/
def lookup_assert (lk : LookupModel) (fixed : List (List CellValue)) (region_no : Nat)
    (row_num : Int) (es : List String) : String :=
  let pairs := lookup_pairs lk region_no row_num es
  let n := (fixed.headD []).length
  write_assert_bool (String.join (table_disjuncts pairs fixed (List.range n))) .Or

/-- Modelled from the spec: `AbsResult`, the three-valued liveness
lattice of `circuit_analyzer::abstract_expr` (not among the provided
sources; spec section 3). -/
inductive AbsResult where
  | Zero
  | NonZero
  | Unknown
deriving DecidableEq, Repr

/-- Modelled from the spec: `abstract_expr::eval_abstract` (spec
section 4.1).  A selector reference is `Zero` when absent from the
enabled set and `NonZero` otherwise; only an explicit zero constant is
`Zero`; other constants and all column references are `Unknown`;
negation keeps the class; a sum is `Zero` only when both operands are,
else `Unknown`; a product is `Zero` when either operand is, else
`Unknown`; `Scaled` follows the product rule through the spec's
`Scale(expr, c) = Product(Constant(c), expr)` rewrite. -/
def eval_abstract (enabled : List Nat) : Expression → AbsResult
  | .Constant a => if a = 0 then .Zero else .Unknown
  | .Selector s => if enabled.contains s then .NonZero else .Zero
  | .Fixed _ _ => .Unknown
  | .Advice _ _ => .Unknown
  | .Instance _ _ => .Unknown
  | .Negated e => eval_abstract enabled e
  | .Sum a b =>
    if eval_abstract enabled a = .Zero ∧ eval_abstract enabled b = .Zero then .Zero
    else .Unknown
  | .Product a b =>
    if eval_abstract enabled a = .Zero ∨ eval_abstract enabled b = .Zero then .Zero
    else .Unknown
  | .Scaled e c =>
    if c = 0 ∨ eval_abstract enabled e = .Zero then .Zero else .Unknown

/-- Kind of a layout column, as in halo2's `Column<Any>`. -/
inductive ColKind where
  | Advice
  | Fixed
  | Instance
deriving DecidableEq, Repr

/-- A column of any kind, identified by kind and index. -/
structure AnyColumn where
  kind : ColKind
  index : Nat
deriving DecidableEq, Repr

/-- Modelled from the spec: `abstract_expr::extract_columns` (spec
section 4.1) collects every Fixed/Advice column reference textually
present in an expression, with its rotation, independent of selector
state. -/
def extract_columns : Expression → List (AnyColumn × Int)
  | .Fixed ci rot => [(⟨.Fixed, ci⟩, rot)]
  | .Advice ci rot => [(⟨.Advice, ci⟩, rot)]
  | .Negated e => extract_columns e
  | .Sum a b => extract_columns a ++ extract_columns b
  | .Product a b => extract_columns a ++ extract_columns b
  | .Scaled e _ => extract_columns e
  | _ => []

/-- A custom gate: name plus polynomial expressions (spec section 3). -/
structure Gate where
  name : String
  polys : List Expression
deriving Repr

/-- A column entry recorded inside a region: either a selector column
or a data column (halo2's `layouter::RegionColumn`). -/
inductive RegionColumn where
  | Selector (s : Nat)
  | Column (c : AnyColumn)
deriving DecidableEq, Repr

/-- Modelled from the spec: the layouter's per-region data consumed by
the analyzer (`circuit_analyzer::layouter` is not among the provided
sources; spec sections 3 and 6): name, row count, the enabled selectors
as indices (`region.selectors()`, fed to the abstract evaluator), the
enabled selectors as formatted SMT names (`region.enabled_selectors`,
fed to the symbolic encoder), and the (column, rotation) pairs
referenced in the region. -/
structure RegionModel where
  name : String
  row_count : Nat
  selectors : List Nat
  enabled_selectors : List String
  columns : List (RegionColumn × Int)
deriving Inhabited

/-- The gate and lookup encoding driver `decompose_polynomial`
(analyzer.rs lines 452-560), restricted to its observable output: the
ordered list of assertion lines it writes.  Nothing is emitted when the
region list is empty; otherwise every gate polynomial is asserted equal
to zero at every row of every region, and then every lookup is encoded
at every row of every region. -/
def decompose_polynomial (regions : List RegionModel) (gates : List Gate)
    (lookups : List LookupModel) (fixed : List (List CellValue)) : List String :=
  if regions.isEmpty then []
  else
    ((List.range regions.length).flatMap fun rno =>
      (List.range (regions.getD rno default).row_count).flatMap fun row =>
        gates.flatMap fun g =>
          g.polys.map fun p =>
            write_assert
              (decompose_expression (regions.getD rno default).enabled_selectors rno
                (Int.ofNat row) p).1
              "0" .Poly .Equal)
    ++ ((List.range regions.length).flatMap fun rno =>
      (List.range (regions.getD rno default).row_count).flatMap fun row =>
        lookups.map fun lk =>
          lookup_assert lk fixed rno (Int.ofNat row)
            (regions.getD rno default).enabled_selectors)

/-- The log line pushed for an unused gate (analyzer.rs line 109). -/
def gate_unused_msg (g : Gate) : String :=
  "unused gate: \"" ++ g.name ++
    "\" (consider removing the gate or checking selectors in regions)"

/-- `analyze_unused_custom_gates` (analyzer.rs lines 89-116), restricted
to its observable output: the log entries appended.  A gate is used
when some region has some polynomial not abstractly `Zero` under the
region's enabled selectors; otherwise one entry is logged for it. -/
def analyze_unused_custom_gates (gates : List Gate) (regions : List RegionModel) :
    List String :=
  gates.filterMap fun g =>
    if regions.any (fun reg => g.polys.any fun p =>
        !(eval_abstract reg.selectors p == .Zero)) then none
    else some (gate_unused_msg g)

/-- Rendering of a region column in the unconstrained-cell log line
(Rust `{:?}` Debug formatting, approximated; its exact text is
irrelevant to the verified properties). -/
def regionColumnRepr : RegionColumn → String
  | .Selector s => "Selector(Selector(" ++ toString s ++ "))"
  | .Column c =>
    let k := match c.kind with
      | .Advice => "Advice"
      | .Fixed => "Fixed"
      | .Instance => "Instance"
    "Column(index: " ++ toString c.index ++ ", column_type: " ++ k ++ ")"

/-- The log line pushed for an unconstrained cell (analyzer.rs line
181; Rust Debug formatting approximated). -/
def unconstrained_msg (rname : String) (rc : RegionColumn) (rot : Int) : String :=
  "unconstrained cell in \"" ++ rname ++ "\" region: " ++ regionColumnRepr rc ++
    " (rotation: Rotation(" ++ toString rot ++ ")) -- very likely a bug."

/-- `analyze_unconstrained_cells` (analyzer.rs lines 154-189),
restricted to its observable output: the log entries appended.
Selector-column entries are skipped; a data cell is used when some gate
polynomial is not abstractly `Zero` under the region's selectors and
textually references the (column, rotation); otherwise one entry is
logged for it. -/
def analyze_unconstrained_cells (gates : List Gate) (regions : List RegionModel) :
    List String :=
  regions.flatMap fun reg =>
    reg.columns.filterMap fun pr =>
      match pr.1 with
      | .Selector _ => none
      | .Column col =>
        if gates.any (fun g => g.polys.any fun poly =>
            !(eval_abstract reg.selectors poly == .Zero) &&
              (extract_columns poly).contains (col, pr.2)) then none
        else some (unconstrained_msg reg.name pr.1 pr.2)

/-! ### Supporting lemmas -/

/-- A `filterMap` that keeps exactly the elements failing a test is a
filter followed by a map. -/
theorem filterMap_if_none {α β : Type} (p : α → Bool) (f : α → β) (l : List α) :
    (l.filterMap fun a => if p a then none else some (f a)) =
      (l.filter fun a => !p a).map f := by
  induction l with
  | nil => rfl
  | cons a l ih =>
    by_cases h : p a <;> simp [List.filterMap_cons, List.filter_cons, h, ih]

/-- Negation of a boolean `any` is an `all` of negations. -/
theorem not_any_eq_all {α : Type} (l : List α) (p : α → Bool) :
    (!l.any p) = l.all fun a => !p a := by
  induction l with
  | nil => rfl
  | cons a l ih => simp [List.any_cons, List.all_cons, ← ih]

/-- `evalAll` is the conjunction of `evalF` over the list. -/
theorem evalAll_eq_true_iff (m : String → Int) (fs : List Formula) :
    evalAll m fs = true ↔ ∀ f ∈ fs, evalF m f = true := by
  induction fs with
  | nil => simp [evalAll]
  | cons f fs ih => simp [evalAll, ih]

/-- `evalAny` is the disjunction of `evalF` over the list. -/
theorem evalAny_eq_true_iff (m : String → Int) (fs : List Formula) :
    evalAny m fs = true ↔ ∃ f ∈ fs, evalF m f = true := by
  induction fs with
  | nil => simp [evalAny]
  | cons f fs ih => simp [evalAny, ih]

/-- The scope machine processes concatenated scripts sequentially. -/
theorem procScript_append (s : List Formula × List (List Formula))
    (l1 l2 : List Command) :
    procScript s (l1 ++ l2) = procScript (procScript s l1) l2 :=
  List.foldl_append ..

/-- Net effect of one backtrackable scope holding a single assertion,
followed by a permanent assertion: the scoped assertion vanishes and
the permanent one lands at the end (spec section 5's stack
discipline). -/
theorem effective_scope_block (s : List Command) (a b : Formula) :
    effective (s ++ [.push, .assertF a, .pop, .assertF b]) = effective s ++ [b] := by
  unfold effective
  rw [procScript_append]
  rcases h : procScript ([], []) s with ⟨cur, stk⟩
  simp [procScript, procCmd]

/-- The single same/diff pass over the variables equals the pair of
filtered maps described by the specification: equalities for the
instance variables not pinned by `Specific` mode, disequalities for all
remaining variables. -/
theorem sameDiff_eq (ik : List String) (meth : VerificationMethod) (M : String → Int)
    (vars : List String) :
    sameDiff ik meth M vars =
      ((vars.filter fun v => ik.contains v && !(meth == .Specific)).map fun v =>
          Formula.eq v (M v),
        (vars.filter fun v => !(ik.contains v && !(meth == .Specific))).map fun v =>
          Formula.ne v (M v)) := by
  induction vars with
  | nil => rfl
  | cons v vars ih =>
    by_cases h1 : v ∈ ik <;> by_cases h2 : meth = VerificationMethod.Specific
    · subst h2; simp [sameDiff, List.filter_cons, h1, ih]
    · simp [sameDiff, List.filter_cons, h1, h2, ih]
    · subst h2; simp [sameDiff, List.filter_cons, h1, ih]
    · simp [sameDiff, List.filter_cons, h1, h2, ih]

/-- The trace never records more iterations than the fuel allows. -/
theorem uniqLoop_trace_length (solve : Solver) (vars ik : List String)
    (meth : VerificationMethod) :
    ∀ (fuel : Nat) (script : List Command),
      (uniqLoop solve vars ik meth script fuel).2.2.length ≤ fuel := by
  intro fuel
  induction fuel with
  | zero => intro script; simp [uniqLoop]
  | succ fuel ih =>
    intro script
    rw [uniqLoop]
    by_cases h1 : (solve script).sat = .Unsatisfiable
    · simp [h1]
    · by_cases h2 :
        (solve (script ++ [.push, .assertF (cexFormula vars ik meth (solve script).result)])).sat
          = .Satisfiable <;>
        simp [h1, h2, Nat.succ_le_succ (ih _)]

/-- Every satisfiable model recorded in the loop trace satisfies every
assertion already in force when the loop was entered: later entering
scripts only grow by permanent blocking clauses. -/
theorem uniqLoop_trace_sound (solve : Solver) (hs : SolverSound solve)
    (vars ik : List String) (meth : VerificationMethod) :
    ∀ (fuel : Nat) (script : List Command)
      (e : Satisfiability × (String → Int)),
      e ∈ (uniqLoop solve vars ik meth script fuel).2.2 →
      e.1 = .Satisfiable → ∀ f ∈ effective script, evalF e.2 f = true := by
  intro fuel
  induction fuel with
  | zero => intro script e he; simp [uniqLoop] at he
  | succ fuel ih =>
    intro script e he hsat f hf
    rw [uniqLoop] at he
    by_cases h1 : (solve script).sat = .Unsatisfiable
    · simp [h1] at he
    · by_cases h2 :
        (solve (script ++ [.push, .assertF (cexFormula vars ik meth (solve script).result)])).sat
          = .Satisfiable
      · simp [h1, h2] at he
        subst he
        exact (evalAll_eq_true_iff _ _).mp (hs script hsat) f hf
      · simp [h1, h2] at he
        rcases he with he | he
        · subst he
          exact (evalAll_eq_true_iff _ _).mp (hs script hsat) f hf
        · refine ih _ e he hsat f ?_
          rw [effective_scope_block]
          exact List.mem_append_left _ hf

/-- Any two satisfiable base models recorded by distinct iterations
disagree on some instance variable: each iteration permanently asserts
the blocking disjunction over the instance variables, and a sound
solver only returns models satisfying it. -/
theorem uniqLoop_trace_pairwise (solve : Solver) (hs : SolverSound solve)
    (vars ik : List String) (meth : VerificationMethod) :
    ∀ (fuel : Nat) (script : List Command),
      List.Pairwise (fun e1 e2 => e1.1 = .Satisfiable → e2.1 = .Satisfiable →
          ∃ v, v ∈ vars ∧ ik.contains v = true ∧ e1.2 v ≠ e2.2 v)
        (uniqLoop solve vars ik meth script fuel).2.2 := by
  intro fuel
  induction fuel with
  | zero => intro script; simp [uniqLoop]
  | succ fuel ih =>
    intro script
    rw [uniqLoop]
    by_cases h1 : (solve script).sat = .Unsatisfiable
    · simp [h1]
    · by_cases h2 :
        (solve (script ++ [.push, .assertF (cexFormula vars ik meth (solve script).result)])).sat
          = .Satisfiable
      · simp [h1, h2]
      · simp only [h1, h2, if_neg, if_false]
        simp only [List.pairwise_cons]
        constructor
        · intro e he hsat1 hsat2
          have hblock :
              blockFormula vars ik (solve script).result ∈
                effective (script ++
                  [Command.push, .assertF (cexFormula vars ik meth (solve script).result)] ++
                  [Command.pop, .assertF (blockFormula vars ik (solve script).result)]) := by
            rw [show script ++ [Command.push,
                .assertF (cexFormula vars ik meth (solve script).result)] ++
                [Command.pop, .assertF (blockFormula vars ik (solve script).result)] =
                script ++ [Command.push,
                .assertF (cexFormula vars ik meth (solve script).result),
                Command.pop, .assertF (blockFormula vars ik (solve script).result)] by simp]
            rw [effective_scope_block]
            exact List.mem_append_right _ (List.mem_singleton.mpr rfl)
          have heval := uniqLoop_trace_sound solve hs vars ik meth fuel _ e he hsat2 _ hblock
          rw [show blockFormula vars ik (solve script).result =
              .disj ((vars.filter fun v => ik.contains v).map fun v =>
                .ne v ((solve script).result v)) from rfl] at heval
          rw [show evalF e.2 (.disj ((vars.filter fun v => ik.contains v).map fun v =>
              Formula.ne v ((solve script).result v))) =
              evalAny e.2 ((vars.filter fun v => ik.contains v).map fun v =>
              Formula.ne v ((solve script).result v)) from rfl] at heval
          rcases (evalAny_eq_true_iff _ _).mp heval with ⟨f, hfmem, hftrue⟩
          rcases List.mem_map.mp hfmem with ⟨v, hvmem, rfl⟩
          rcases List.mem_filter.mp hvmem with ⟨hv1, hv2⟩
          refine ⟨v, hv1, hv2, ?_⟩
          rw [show evalF e.2 (Formula.ne v ((solve script).result v)) =
              !(e.2 v == (solve script).result v) from rfl] at hftrue
          simp only [Bool.not_eq_true', beq_eq_false_iff_ne, ne_eq] at hftrue
          exact fun hcontra => hftrue hcontra.symm
        · exact ih _

/-- The always-unsatisfiable toy solver is sound. -/
theorem unsatSolver_sound : SolverSound unsatSolver :=
  fun _ h => Satisfiability.noConfusion h

/-- The unused-gate pass, rephrased: filter the gates whose polynomials
all abstractly evaluate to `Zero` in every region, and log one message
per such gate. -/
theorem analyze_unused_custom_gates_eq (gates : List Gate) (regions : List RegionModel) :
    analyze_unused_custom_gates gates regions =
      (gates.filter fun g => regions.all fun reg => g.polys.all fun p =>
          eval_abstract reg.selectors p == .Zero).map gate_unused_msg := by
  unfold analyze_unused_custom_gates
  rw [filterMap_if_none]
  have h : (fun g : Gate => !(regions.any fun reg => g.polys.any fun p =>
      !(eval_abstract reg.selectors p == .Zero))) =
      fun g : Gate => regions.all fun reg => g.polys.all fun p =>
        eval_abstract reg.selectors p == .Zero := by
    funext g
    rw [not_any_eq_all]
    refine congrArg regions.all (funext fun reg => ?_)
    rw [not_any_eq_all]
    refine congrArg g.polys.all (funext fun p => ?_)
    rw [Bool.not_not]
  rw [h]

/-- The per-cell condition of the unconstrained-cell pass, rephrased:
"no gate polynomial both references the cell and is not provably Zero"
is the negation of the code's "some gate polynomial is not Zero and
references the cell". -/
theorem cell_used_all_eq (gates : List Gate) (selectors : List Nat)
    (col : AnyColumn) (rot : Int) :
    (gates.all fun g => g.polys.all fun poly =>
        !((extract_columns poly).contains (col, rot) &&
          !(eval_abstract selectors poly == .Zero))) =
      !(gates.any fun g => g.polys.any fun poly =>
        !(eval_abstract selectors poly == .Zero) &&
          (extract_columns poly).contains (col, rot)) := by
  rw [not_any_eq_all]
  refine congrArg gates.all (funext fun g => ?_)
  rw [not_any_eq_all]
  refine congrArg g.polys.all (funext fun poly => ?_)
  rw [Bool.and_comm]

/-- `Unassigned` is the only cell the gap test accepts. -/
@[simp] theorem isUnassigned_unassigned : isUnassigned .Unassigned = true := rfl

/-- An assigned cell is not a gap. -/
@[simp] theorem isUnassigned_assigned (v : Nat) : isUnassigned (.Assigned v) = false := rfl

/-- A poisoned cell is not a gap. -/
@[simp] theorem isUnassigned_poison (k : Nat) : isUnassigned (.Poison k) = false := rfl

/-- Closed form of the inner column scan: the row is dropped exactly
when some scanned cell of the row is `Unassigned`, and otherwise every
(input term, column) pair yields one equality conjunct against the
cell's literal value string. -/
theorem row_equalities_eq (fixed : List (List CellValue)) (row : Nat)
    (pairs : List (String × Nat)) :
    row_equalities fixed row pairs =
      if pairs.any (fun pr => isUnassigned (cellAt fixed pr.2 row)) then none
      else some (pairs.map fun pr =>
        get_assert pr.1 (cell_value_str (cellAt fixed pr.2 row)) .Mult .Equal) := by
  induction pairs with
  | nil => rfl
  | cons pr rest ih =>
    obtain ⟨s, ci⟩ := pr
    rw [row_equalities]
    cases hc : cellAt fixed ci row <;>
      cases hany : (rest.any fun q => isUnassigned (cellAt fixed q.2 row)) <;>
        simp [hc, ih, hany]

/-- Closed form of the outer row scan: the emitted disjuncts are the
per-row conjunctions of the longest prefix of rows free of `Unassigned`
cells. -/
theorem table_disjuncts_eq (pairs : List (String × Nat)) (fixed : List (List CellValue))
    (rows : List Nat) :
    table_disjuncts pairs fixed rows =
      (rows.takeWhile fun r => !(pairs.any fun pr => isUnassigned (cellAt fixed pr.2 r))).map
        fun r => get_and (String.join (pairs.map fun pr =>
          get_assert pr.1 (cell_value_str (cellAt fixed pr.2 r)) .Mult .Equal)) := by
  induction rows with
  | nil => rfl
  | cons r rest ih =>
    rw [table_disjuncts, row_equalities_eq]
    cases h : (pairs.any fun pr => isUnassigned (cellAt fixed pr.2 r)) <;>
      simp [h, ih, List.takeWhile_cons]

/-- The row scan over a concatenation continues past the first block
exactly when that block is free of `Unassigned` cells. -/
theorem table_disjuncts_append (pairs : List (String × Nat))
    (fixed : List (List CellValue)) (l1 l2 : List Nat) :
    table_disjuncts pairs fixed (l1 ++ l2) =
      if l1.all (fun r => !(pairs.any fun pr => isUnassigned (cellAt fixed pr.2 r))) then
        table_disjuncts pairs fixed l1 ++ table_disjuncts pairs fixed l2
      else table_disjuncts pairs fixed l1 := by
  induction l1 with
  | nil => simp [table_disjuncts]
  | cons r rest ih =>
    rw [List.cons_append, table_disjuncts, table_disjuncts, row_equalities_eq]
    cases h : (pairs.any fun pr => isUnassigned (cellAt fixed pr.2 r))
    · cases h2 : (rest.all fun j => !(pairs.any fun pr => isUnassigned (cellAt fixed pr.2 j))) <;>
        simp [h, h2, ih, List.all_cons]
    · simp [h, List.all_cons]

/-- Poison-payload normalization commutes with cell lookup in the fixed
matrix. -/
theorem scrub_cellAt (fixed : List (List CellValue)) (ci row : Nat) :
    cellAt (fixed.map (List.map scrub)) ci row = scrub (cellAt fixed ci row) := by
  unfold cellAt
  simp only [List.getD_eq_getElem?_getD, List.getElem?_map]
  cases h : fixed[ci]? with
  | none => rfl
  | some col =>
    simp only [Option.map_some', Option.getD_some, List.getElem?_map]
    cases h2 : col[row]? <;> rfl

/-- `Unassigned` detection ignores Poison payloads. -/
theorem scrub_isUnassigned (c : CellValue) : isUnassigned (scrub c) = isUnassigned c := by
  cases c <;> rfl

/-- The literal value string ignores Poison payloads. -/
theorem scrub_cell_value_str (c : CellValue) : cell_value_str (scrub c) = cell_value_str c := by
  cases c <;> rfl

/-- The emitted lookup disjuncts never depend on the payload stored
inside a Poison cell. -/
theorem table_disjuncts_scrub (pairs : List (String × Nat))
    (fixed : List (List CellValue)) (rows : List Nat) :
    table_disjuncts pairs (fixed.map (List.map scrub)) rows =
      table_disjuncts pairs fixed rows := by
  rw [table_disjuncts_eq, table_disjuncts_eq]
  simp [scrub_cellAt, scrub_isUnassigned, scrub_cell_value_str]

/-- A table row free of `Unassigned` cells, all of whose predecessors
are also free of them, contributes its conjunction to the emitted
disjuncts. -/
theorem mem_table_disjuncts_of_ok (pairs : List (String × Nat))
    (fixed : List (List CellValue)) (r : Nat)
    (h2 : ∀ j, j ≤ r → ∀ pr ∈ pairs, isUnassigned (cellAt fixed pr.2 j) = false) :
    ∀ n, r < n →
      get_and (String.join (pairs.map fun pr =>
          get_assert pr.1 (cell_value_str (cellAt fixed pr.2 r)) .Mult .Equal)) ∈
        table_disjuncts pairs fixed (List.range n) := by
  intro n
  induction n with
  | zero => omega
  | succ n ihn =>
    intro h1
    rw [List.range_succ, table_disjuncts_append]
    by_cases hrn : r < n
    · have hmem := ihn hrn
      cases hall : ((List.range n).all fun j =>
          !(pairs.any fun pr => isUnassigned (cellAt fixed pr.2 j)))
      · simpa [hall] using hmem
      · rw [if_pos rfl]
        exact List.mem_append_left _ hmem
    · have hr : r = n := by omega
      subst hr
      have hall : ((List.range r).all fun j =>
          !(pairs.any fun pr => isUnassigned (cellAt fixed pr.2 j))) = true := by
        rw [List.all_eq_true]
        intro j hj
        rw [List.mem_range] at hj
        rw [Bool.not_eq_true', List.any_eq_false]
        intro pr hpr
        simp [h2 j (Nat.le_of_lt hj) pr hpr]
      have hrow : (pairs.any fun pr => isUnassigned (cellAt fixed pr.2 r)) = false := by
        rw [List.any_eq_false]
        intro pr hpr
        simp [h2 r (Nat.le_refl r) pr hpr]
      rw [if_pos hall]
      refine List.mem_append_right _ ?_
      simp [table_disjuncts, row_equalities_eq, hrow]

/-! ### Claims -/

/-- C1: in every iteration of the uniqueness search, after recording a
satisfiable model M, the prover opens one backtrackable scope and
asserts the conjunction of (for every instance variable not already
pinned in Specific mode: an equality between that variable and its
value in M) with (the disjunction, over every remaining variable, of a
disequality between that variable and its value in M); it returns
Underconstrained if and only if the solver reports this augmented query
satisfiable. -/
theorem uniqueness_iteration_scope_and_cex :
    (∀ (vars ik : List String) (meth : VerificationMethod) (M : String → Int),
      cexFormula vars ik meth M =
        .conj (((vars.filter fun v => ik.contains v && !(meth == .Specific)).map fun v =>
            Formula.eq v (M v)) ++
          [.disj ((vars.filter fun v => !(ik.contains v && !(meth == .Specific))).map fun v =>
            Formula.ne v (M v))])) ∧
    (∀ (solve : Solver) (vars ik : List String) (meth : VerificationMethod)
        (script : List Command),
      (solve script).sat = .Satisfiable →
      ((uniqLoop solve vars ik meth script 1).1 = .Underconstrained ↔
        (solve (script ++
          [.push, .assertF (cexFormula vars ik meth (solve script).result)])).sat =
            .Satisfiable)) := by
  constructor
  · intro vars ik meth M
    unfold cexFormula
    rw [sameDiff_eq]
  · intro solve vars ik meth script h
    rw [uniqLoop]
    have h1 : ¬(solve script).sat = Satisfiability.Unsatisfiable := by
      rw [h]; intro hc; exact Satisfiability.noConfusion hc
    by_cases h2 : (solve (script ++
        [.push, .assertF (cexFormula vars ik meth (solve script).result)])).sat =
          .Satisfiable
    · simp [h1, h2]
    · simp [h1, h2, uniqLoop]

/-- Witness for C1 on a concrete run of the toy solver. -/
theorem uniqueness_iteration_scope_and_cex_holds :
    (demoSolver []).sat = .Satisfiable ∧
    ((uniqLoop demoSolver ["i", "a"] ["i"] .Random [] 1).1 = .Underconstrained ↔
      (demoSolver ([] ++
        [.push, .assertF (cexFormula ["i", "a"] ["i"] .Random (demoSolver []).result)])).sat =
          .Satisfiable) :=
  ⟨rfl, uniqueness_iteration_scope_and_cex.2 demoSolver ["i", "a"] ["i"] .Random [] rfl⟩

/-- C2: after a counterexample query fails in an iteration, the prover
discards the scope it pushed and then permanently (outside any scope)
asserts the disjunction, over instance variables only, of disequalities
against the original model M's values; consequently, in Random mode, no
two distinct iterations of the loop ever obtain base models that agree
on every instance variable. -/
theorem uniqueness_blocking_clause :
    (∀ (solve : Solver) (vars ik : List String) (meth : VerificationMethod)
        (script : List Command) (fuel : Nat),
      (solve script).sat ≠ .Unsatisfiable →
      (solve (script ++
          [.push, .assertF (cexFormula vars ik meth (solve script).result)])).sat ≠
            .Satisfiable →
      (uniqLoop solve vars ik meth script (fuel + 1) =
        ((uniqLoop solve vars ik meth
            (blocked_script script vars ik meth (solve script).result) fuel).1,
          (uniqLoop solve vars ik meth
            (blocked_script script vars ik meth (solve script).result) fuel).2.1,
          ((solve script).sat, (solve script).result) ::
            (uniqLoop solve vars ik meth
              (blocked_script script vars ik meth (solve script).result) fuel).2.2)) ∧
      effective (blocked_script script vars ik meth (solve script).result) =
        effective script ++ [blockFormula vars ik (solve script).result] ∧
      blockFormula vars ik (solve script).result =
        .disj ((vars.filter fun v => ik.contains v).map fun v =>
          Formula.ne v ((solve script).result v))) ∧
    (∀ (solve : Solver) (vars ik : List String) (script : List Command) (fuel : Nat),
      SolverSound solve →
      List.Pairwise (fun e1 e2 => e1.1 = .Satisfiable → e2.1 = .Satisfiable →
          ∃ v, v ∈ vars ∧ ik.contains v = true ∧ e1.2 v ≠ e2.2 v)
        (uniqLoop solve vars ik .Random script fuel).2.2) := by
  constructor
  · intro solve vars ik meth script fuel h1 h2
    refine ⟨?_, ?_, rfl⟩
    · rw [uniqLoop]
      simp [h1, h2, blocked_script]
    · unfold blocked_script
      exact effective_scope_block ..
  · intro solve vars ik script fuel hs
    exact uniqLoop_trace_pairwise solve hs vars ik .Random fuel script

/-- Witness for C2 on concrete runs of the toy solvers. -/
theorem uniqueness_blocking_clause_holds :
    ((uniqLoop demoSolver ["i", "a"] ["i"] .Random [] 1 =
        ((uniqLoop demoSolver ["i", "a"] ["i"] .Random
            (blocked_script [] ["i", "a"] ["i"] .Random (demoSolver []).result) 0).1,
          (uniqLoop demoSolver ["i", "a"] ["i"] .Random
            (blocked_script [] ["i", "a"] ["i"] .Random (demoSolver []).result) 0).2.1,
          ((demoSolver []).sat, (demoSolver []).result) ::
            (uniqLoop demoSolver ["i", "a"] ["i"] .Random
              (blocked_script [] ["i", "a"] ["i"] .Random (demoSolver []).result) 0).2.2)) ∧
      effective (blocked_script [] ["i", "a"] ["i"] .Random (demoSolver []).result) =
        effective [] ++ [blockFormula ["i", "a"] ["i"] (demoSolver []).result] ∧
      blockFormula ["i", "a"] ["i"] (demoSolver []).result =
        .disj (((["i", "a"].filter fun v => ["i"].contains v)).map fun v =>
          Formula.ne v ((demoSolver []).result v))) ∧
    List.Pairwise (fun e1 e2 => e1.1 = .Satisfiable → e2.1 = .Satisfiable →
        ∃ v, v ∈ ["i"] ∧ ["i"].contains v = true ∧ e1.2 v ≠ e2.2 v)
      (uniqLoop unsatSolver ["i"] ["i"] .Random [] 3).2.2 :=
  ⟨uniqueness_blocking_clause.1 demoSolver ["i", "a"] ["i"] .Random [] 0
      (by decide) (by decide),
    uniqueness_blocking_clause.2 unsatSolver ["i"] ["i"] [] 3 unsatSolver_sound⟩

/-- C3: before entering the iteration loop, the uniqueness prover
queries the solver once on the base encoding (with Specific-mode
instance pins already asserted, if any); if that query is unsatisfiable
it returns Overconstrained, without building any uniqueness-specific
assertions. -/
theorem uniqueness_overconstrained_base :
    ∀ (solve : Solver) (ic : List (String × Int)) (meth : VerificationMethod)
      (iters : Nat) (pr : AnalyzerPrinter),
      base_script .Specific ic pr =
        pr.script ++ ic.map (fun pv => Command.assertF (.eq pv.1 pv.2)) ∧
      base_script .Random ic pr = pr.script ∧
      ((solve (base_script meth ic pr)).sat = .Unsatisfiable →
        uniqueness_assertion solve ic meth iters pr =
          (.Overconstrained, base_script meth ic pr, [])) := by
  intro solve ic meth iters pr
  refine ⟨rfl, rfl, fun h => ?_⟩
  unfold uniqueness_assertion
  simp [h]

/-- Witness for C3 on a concrete run of the always-unsat toy solver. -/
theorem uniqueness_overconstrained_base_holds :
    (unsatSolver (base_script .Specific [("i", 5)] ⟨[], []⟩)).sat = .Unsatisfiable ∧
    uniqueness_assertion unsatSolver [("i", 5)] .Specific 0 ⟨[], []⟩ =
      (.Overconstrained, base_script .Specific [("i", 5)] ⟨[], []⟩, []) :=
  ⟨rfl, (uniqueness_overconstrained_base unsatSolver [("i", 5)] .Specific 0 ⟨[], []⟩).2.2 rfl⟩

/-- C4: the uniqueness loop runs at most max_iterations iterations (1
in Specific mode, the configured bound in Random mode); a loop-head
unsatisfiable query returns NotUnderconstrained immediately; an
exhausted budget returns NotUnderconstrainedLocal. -/
theorem uniqueness_budget :
    (∀ (solve : Solver) (ic : List (String × Int)) (meth : VerificationMethod)
        (iters : Nat) (pr : AnalyzerPrinter),
      (solve (base_script meth ic pr)).sat ≠ .Unsatisfiable →
      uniqueness_assertion solve ic meth iters pr =
        uniqLoop solve pr.vars (ic.map Prod.fst) meth (base_script meth ic pr)
          (match meth with | .Specific => 1 | .Random => iters)) ∧
    (∀ (solve : Solver) (vars ik : List String) (meth : VerificationMethod)
        (script : List Command),
      uniqLoop solve vars ik meth script 0 = (.NotUnderconstrainedLocal, script, [])) ∧
    (∀ (solve : Solver) (vars ik : List String) (meth : VerificationMethod)
        (script : List Command) (fuel : Nat),
      (solve script).sat = .Unsatisfiable →
      uniqLoop solve vars ik meth script (fuel + 1) = (.NotUnderconstrained, script, [])) ∧
    (∀ (solve : Solver) (vars ik : List String) (meth : VerificationMethod)
        (script : List Command) (fuel : Nat),
      (uniqLoop solve vars ik meth script fuel).2.2.length ≤ fuel) := by
  refine ⟨?_, ?_, ?_, ?_⟩
  · intro solve ic meth iters pr h
    unfold uniqueness_assertion
    simp [h]
  · intro solve vars ik meth script
    rfl
  · intro solve vars ik meth script fuel h
    rw [uniqLoop]
    simp [h]
  · intro solve vars ik meth script fuel
    exact uniqLoop_trace_length solve vars ik meth fuel script

/-- Witness for C4 on concrete runs of the toy solvers. -/
theorem uniqueness_budget_holds :
    uniqueness_assertion demoSolver [("i", 0)] .Random 2 ⟨[], ["i", "a"]⟩ =
      uniqLoop demoSolver ["i", "a"] (List.map Prod.fst [("i", 0)]) .Random
        (base_script .Random [("i", 0)] ⟨[], ["i", "a"]⟩) 2 ∧
    uniqLoop demoSolver ["i"] ["i"] .Random [] 0 = (.NotUnderconstrainedLocal, [], []) ∧
    uniqLoop unsatSolver ["i"] ["i"] .Random [] 1 = (.NotUnderconstrained, [], []) ∧
    (uniqLoop demoSolver ["i", "a"] ["i"] .Random [] 5).2.2.length ≤ 5 :=
  ⟨uniqueness_budget.1 demoSolver [("i", 0)] .Random 2 ⟨[], ["i", "a"]⟩ (by decide),
    uniqueness_budget.2.1 demoSolver ["i"] ["i"] .Random [],
    uniqueness_budget.2.2.1 unsatSolver ["i"] ["i"] .Random [] 0 rfl,
    uniqueness_budget.2.2.2 demoSolver ["i", "a"] ["i"] .Random [] 5⟩

/-- C6: for every expression e, field constant c, region index, row
number and enabled-selector set, decompose_expression applied to
Scaled(e, c) produces the same SMT term string as decompose_expression
applied to Product(Constant(c), e): the Scale case is the rewrite to a
product with the constant on the left, recursed through the Product
rule. -/
theorem decompose_scaled_eq_product_constant :
    ∀ (es : List String) (region_no : Nat) (row_num : Int) (e : Expression) (c : Nat),
      (decompose_expression es region_no row_num (.Scaled e c)).1 =
        (decompose_expression es region_no row_num (.Product (.Constant c) e)).1 := by
  intro es region_no row_num e c
  simp [decompose_expression]

/-- C7: analyze_unused_custom_gates reports a gate as unused (appending
exactly one log entry for it) if and only if, for every region, every
one of the gate's polynomials abstractly evaluates to Zero under that
region's enabled-selector set; in particular a gate that is solely
Product(SelectorRef(s), AdviceRef(c,0)) with s absent from every
region's enabled set is reported as unused. -/
theorem unused_gates_report_iff :
    (∀ (gates : List Gate) (regions : List RegionModel),
      analyze_unused_custom_gates gates regions =
        (gates.filter fun g => regions.all fun reg => g.polys.all fun p =>
            eval_abstract reg.selectors p == .Zero).map gate_unused_msg) ∧
    (∀ (gates : List Gate) (regions : List RegionModel) (name : String) (s c : Nat),
      (∀ reg ∈ regions, reg.selectors.contains s = false) →
      Gate.mk name [.Product (.Selector s) (.Advice c 0)] ∈ gates →
      gate_unused_msg (Gate.mk name [.Product (.Selector s) (.Advice c 0)]) ∈
        analyze_unused_custom_gates gates regions) := by
  constructor
  · exact analyze_unused_custom_gates_eq
  · intro gates regions name s c hsel hmem
    rw [analyze_unused_custom_gates_eq]
    refine List.mem_map_of_mem _ ?_
    rw [List.mem_filter]
    refine ⟨hmem, ?_⟩
    rw [List.all_eq_true]
    intro reg hreg
    rw [List.all_eq_true]
    intro p hp
    rw [List.mem_singleton] at hp
    subst hp
    have hs' : s ∉ reg.selectors := by simpa using hsel reg hreg
    simp [eval_abstract, hs']

/-- Witness for C7: the spec's example gate in a one-region layout with
its selector disabled everywhere. -/
theorem unused_gates_report_iff_holds :
    (∀ reg ∈ [RegionModel.mk "r" 1 [] [] []], reg.selectors.contains 0 = false) ∧
    Gate.mk "g" [.Product (.Selector 0) (.Advice 0 0)] ∈
      [Gate.mk "g" [.Product (.Selector 0) (.Advice 0 0)]] ∧
    gate_unused_msg (Gate.mk "g" [.Product (.Selector 0) (.Advice 0 0)]) ∈
      analyze_unused_custom_gates [Gate.mk "g" [.Product (.Selector 0) (.Advice 0 0)]]
        [RegionModel.mk "r" 1 [] [] []] :=
  ⟨by decide, List.mem_singleton.mpr rfl,
    unused_gates_report_iff.2 _ _ "g" 0 0 (by decide) (List.mem_singleton.mpr rfl)⟩

/-- C8: analyze_unconstrained_cells skips every selector-column entry
of a region, and reports a (column, rotation) pair referenced inside a
region as unconstrained (appending one log entry) if and only if no
gate polynomial both textually references that (column, rotation) via
extract_columns and is not provably Zero under that region's
enabled-selector set. -/
theorem unconstrained_cells_report_iff :
    ∀ (gates : List Gate) (regions : List RegionModel),
      analyze_unconstrained_cells gates regions =
        regions.flatMap fun reg =>
          reg.columns.filterMap fun pr =>
            match pr.1 with
            | .Selector _ => none
            | .Column col =>
              if gates.all (fun g => g.polys.all fun poly =>
                  !((extract_columns poly).contains (col, pr.2) &&
                    !(eval_abstract reg.selectors poly == .Zero))) then
                some (unconstrained_msg reg.name pr.1 pr.2)
              else none := by
  intro gates regions
  unfold analyze_unconstrained_cells
  refine congrArg regions.flatMap (funext fun reg => ?_)
  refine congrArg reg.columns.filterMap (funext fun pr => ?_)
  obtain ⟨rc, rot⟩ := pr
  cases rc with
  | Selector s => rfl
  | Column col =>
    cases h : (gates.any fun g => g.polys.any fun poly =>
        !(eval_abstract reg.selectors poly == .Zero) &&
          (extract_columns poly).contains (col, rot)) <;>
      simp only [cell_used_all_eq, h] <;> simp

/-- C10: if the layouter's region list is empty,
analyze_unused_custom_gates reports every gate of the constraint system
as unused (the universal quantification over regions is vacuously
satisfied), appending one log entry per declared gate. -/
theorem unused_gates_empty_regions :
    ∀ gates : List Gate,
      analyze_unused_custom_gates gates [] = gates.map gate_unused_msg := by
  intro gates
  rw [analyze_unused_custom_gates_eq]
  simp

/-- C5: for every lookup at every row of every region, the encoder
asserts the disjunction, over rows of the concrete fixed-table data
taken in order up to but excluding the first row in which an Unassigned
cell is encountered (that row and all subsequent rows are skipped), of
the conjunction over table columns of equalities "input-expression term
equals the literal fixed value at this table row". -/
theorem lookup_encoding_truncated_disjunction :
    (∀ (regions : List RegionModel) (gates : List Gate) (lookups : List LookupModel)
        (fixed : List (List CellValue)) (rno row : Nat) (lk : LookupModel),
      rno < regions.length →
      row < (regions.getD rno default).row_count →
      lk ∈ lookups →
      lookup_assert lk fixed rno (Int.ofNat row)
          (regions.getD rno default).enabled_selectors ∈
        decompose_polynomial regions gates lookups fixed) ∧
    (∀ (lk : LookupModel) (fixed : List (List CellValue)) (es : List String)
        (region_no : Nat) (row_num : Int),
      lookup_assert lk fixed region_no row_num es =
        write_assert_bool (String.join
          (((List.range ((fixed.headD []).length)).takeWhile fun r =>
              !((lookup_pairs lk region_no row_num es).any fun pr =>
                isUnassigned (cellAt fixed pr.2 r))).map
            fun r => get_and (String.join
              ((lookup_pairs lk region_no row_num es).map fun pr =>
                get_assert pr.1 (cell_value_str (cellAt fixed pr.2 r)) .Mult .Equal))))
          .Or) := by
  constructor
  · intro regions gates lookups fixed rno row lk h1 h2 h3
    unfold decompose_polynomial
    have hne : regions.isEmpty = false := by
      cases regions
      · simp at h1
      · rfl
    simp only [hne, Bool.false_eq_true, if_false]
    refine List.mem_append_right _ ?_
    simp only [List.mem_flatMap, List.mem_range, List.mem_map]
    exact ⟨rno, h1, row, h2, lk, h3, rfl⟩
  · intro lk fixed es region_no row_num
    simp only [lookup_assert]
    rw [table_disjuncts_eq]

/-- Witness for C5 on a one-region, one-lookup, one-cell instance. -/
theorem lookup_encoding_truncated_disjunction_holds :
    (lookup_assert (LookupModel.mk [.Advice 0 0] [.Fixed 0 0]) [[CellValue.Assigned 3]] 0
        (Int.ofNat 0) ([RegionModel.mk "r" 1 [] [] []].getD 0 default).enabled_selectors ∈
      decompose_polynomial [RegionModel.mk "r" 1 [] [] []] []
        [LookupModel.mk [.Advice 0 0] [.Fixed 0 0]] [[CellValue.Assigned 3]]) ∧
    lookup_assert (LookupModel.mk [.Advice 0 0] [.Fixed 0 0]) [[CellValue.Assigned 3]] 0 0 [] =
      write_assert_bool (String.join
        (((List.range (([[CellValue.Assigned 3]].headD []).length)).takeWhile fun r =>
            !((lookup_pairs (LookupModel.mk [.Advice 0 0] [.Fixed 0 0]) 0 0 []).any fun pr =>
              isUnassigned (cellAt [[CellValue.Assigned 3]] pr.2 r))).map
          fun r => get_and (String.join
            ((lookup_pairs (LookupModel.mk [.Advice 0 0] [.Fixed 0 0]) 0 0 []).map fun pr =>
              get_assert pr.1 (cell_value_str (cellAt [[CellValue.Assigned 3]] pr.2 r))
                .Mult .Equal))))
        .Or :=
  ⟨lookup_encoding_truncated_disjunction.1 [RegionModel.mk "r" 1 [] [] []] []
      [LookupModel.mk [.Advice 0 0] [.Fixed 0 0]] [[CellValue.Assigned 3]] 0 0
      (LookupModel.mk [.Advice 0 0] [.Fixed 0 0]) (by decide) (by decide)
      (List.mem_singleton.mpr rfl),
    lookup_encoding_truncated_disjunction.2 (LookupModel.mk [.Advice 0 0] [.Fixed 0 0])
      [[CellValue.Assigned 3]] [] 0 0⟩

/-- C9 (counterexample): in a two-column table whose single row holds a
Poison cell in the first scanned column and an Unassigned cell in the
second, the Poison-carrying row is skipped and the scan stops (no
disjunct at all is emitted), although no Unassigned cell sits at an
earlier column than the Poison cell; this refutes the claim as
stated. -/
theorem lookup_poison_row_skipped_cex :
    cellAt [[CellValue.Poison 7], [CellValue.Unassigned]] 0 0 = CellValue.Poison 7 ∧
    table_disjuncts [("x", 0), ("y", 1)] [[CellValue.Poison 7], [CellValue.Unassigned]]
      (List.range (([[CellValue.Poison 7], [CellValue.Unassigned]].headD []).length)) = [] ∧
    lookup_assert (LookupModel.mk [.Advice 0 0, .Advice 1 0] [.Fixed 0 0, .Fixed 1 0])
      [[CellValue.Poison 7], [CellValue.Unassigned]] 0 0 [] = write_assert_bool "" .Or :=
  ⟨rfl, rfl, rfl⟩

/-- C9 (amended): during lookup encoding, a table row containing a
Poison fixed cell — provided no Unassigned cell occurs in any scanned
column of that row nor in any earlier table row — neither stops the
table scan nor is skipped: its conjunction is emitted among the
disjuncts, the value stored inside the Poison cell never influences the
emitted encoding, and the equality conjunct generated for that column
compares the input-expression term against an empty literal string. -/
theorem lookup_poison_row_kept :
    (∀ (pairs : List (String × Nat)) (fixed : List (List CellValue)) (n r : Nat),
      r < n →
      (∀ j, j ≤ r → ∀ pr ∈ pairs, isUnassigned (cellAt fixed pr.2 j) = false) →
      (get_and (String.join (pairs.map fun pr =>
          get_assert pr.1 (cell_value_str (cellAt fixed pr.2 r)) .Mult .Equal)) ∈
        table_disjuncts pairs fixed (List.range n)) ∧
      (∀ (s : String) (ci k : Nat), (s, ci) ∈ pairs → cellAt fixed ci r = .Poison k →
        get_assert s "" .Mult .Equal ∈ pairs.map fun pr =>
          get_assert pr.1 (cell_value_str (cellAt fixed pr.2 r)) .Mult .Equal)) ∧
    (∀ (pairs : List (String × Nat)) (fixed : List (List CellValue)) (rows : List Nat),
      table_disjuncts pairs (fixed.map (List.map scrub)) rows =
        table_disjuncts pairs fixed rows) := by
  constructor
  · intro pairs fixed n r h1 h2
    constructor
    · exact mem_table_disjuncts_of_ok pairs fixed r h2 n h1
    · intro s ci k hmem hcell
      refine List.mem_map.mpr ⟨(s, ci), hmem, ?_⟩
      simp [hcell, cell_value_str]
  · intro pairs fixed rows
    exact table_disjuncts_scrub pairs fixed rows

/-- Witness for C9 (amended) on a concrete table whose first row holds
a Poison cell followed by an assigned cell in a later row. -/
theorem lookup_poison_row_kept_holds :
    (get_and (String.join ([("x", 0)].map fun pr =>
        get_assert pr.1
          (cell_value_str (cellAt [[CellValue.Poison 3, CellValue.Assigned 5]] pr.2 0))
          .Mult .Equal)) ∈
      table_disjuncts [("x", 0)] [[CellValue.Poison 3, CellValue.Assigned 5]]
        (List.range 2)) ∧
    (get_assert "x" "" .Mult .Equal ∈ [("x", 0)].map fun pr =>
      get_assert pr.1
        (cell_value_str (cellAt [[CellValue.Poison 3, CellValue.Assigned 5]] pr.2 0))
        .Mult .Equal) ∧
    table_disjuncts [("x", 0)]
        ([[CellValue.Poison 3, CellValue.Assigned 5]].map (List.map scrub)) (List.range 2) =
      table_disjuncts [("x", 0)] [[CellValue.Poison 3, CellValue.Assigned 5]]
        (List.range 2) :=
  ⟨(lookup_poison_row_kept.1 [("x", 0)] [[CellValue.Poison 3, CellValue.Assigned 5]] 2 0
      (by decide)
      (by
        intro j hj pr hpr
        rw [Nat.le_zero] at hj
        subst hj
        rw [List.mem_singleton] at hpr
        subst hpr
        rfl)).1,
    (lookup_poison_row_kept.1 [("x", 0)] [[CellValue.Poison 3, CellValue.Assigned 5]] 2 0
      (by decide)
      (by
        intro j hj pr hpr
        rw [Nat.le_zero] at hj
        subst hj
        rw [List.mem_singleton] at hpr
        subst hpr
        rfl)).2 "x" 0 3 (List.mem_singleton.mpr rfl) rfl,
    lookup_poison_row_kept.2 [("x", 0)] [[CellValue.Poison 3, CellValue.Assigned 5]]
      (List.range 2)⟩

end Korrekt
